import Mathlib

/-!
Verification of the 4-bit quantization core of this repository:
the validated half-byte type and the two quantization schemes from
`src/tensor/quant_cpu/quantize.rs`, and the dropout kernel over quantized
storage from `src/tensor_ops/dropout/quant_cpu_kernel.rs`.

Floating-point values are modelled exactly: a finite float is a rational
number, and every non-finite result (NaN, or an infinity produced by a
division by zero) is collapsed into a single `Fl.nan` marker that
propagates through arithmetic and is incomparable, exactly as NaN is in
`partial_cmp`. Machine-integer casts (`as i8`, `as u8`) are modelled with
their release-mode semantics: saturating on float-to-int casts (NaN maps
to 0), two's-complement wrapping on integer overflow.
-/

/-- A floating value: either a finite value (an exact rational) or the
non-finite marker `nan`. -/
inductive Fl where
  | nan : Fl
  | val : ℚ → Fl
deriving DecidableEq, Repr

/-- Whether the value is the non-finite marker. -/
def Fl.isNaN : Fl → Bool
  | .nan => true
  | .val _ => false

/-- Float addition: finite values add exactly, `nan` propagates. -/
def Fl.add : Fl → Fl → Fl
  | .val a, .val b => .val (a + b)
  | _, _ => .nan

/-- Float subtraction: finite values subtract exactly, `nan` propagates. -/
def Fl.sub : Fl → Fl → Fl
  | .val a, .val b => .val (a - b)
  | _, _ => .nan

/-- Float multiplication: finite values multiply exactly, `nan` propagates. -/
def Fl.mul : Fl → Fl → Fl
  | .val a, .val b => .val (a * b)
  | _, _ => .nan

/-- Float division: `nan` propagates, and a zero divisor yields a
non-finite result (an infinity or NaN in the source, collapsed to `nan`
here). -/
def Fl.div : Fl → Fl → Fl
  | .val a, .val b => if b = 0 then .nan else .val (a / b)
  | _, _ => .nan

/-- `Float::abs`: `nan` stays `nan`. -/
def Fl.abs : Fl → Fl
  | .nan => .nan
  | .val a => .val |a|

/-- `num_traits::Zero::is_zero` for floats: `nan` is not zero. -/
def Fl.isZero : Fl → Bool
  | .nan => false
  | .val a => decide (a = 0)

/-- Strict `<` on floats: any comparison against NaN is false. -/
def Fl.lt : Fl → Fl → Bool
  | .val a, .val b => decide (a < b)
  | _, _ => false

/-- `PartialOrd::partial_cmp` for floats: `none` exactly when one operand
is NaN. -/
def Fl.partialCmp : Fl → Fl → Option Ordering
  | .val a, .val b => some (if a < b then .lt else if b < a then .gt else .eq)
  | _, _ => none

/-- `f32::round` / `f64::round`: round half away from zero, as an integer. -/
def rustRound (q : ℚ) : ℤ :=
  if 0 ≤ q then ⌊q + 1 / 2⌋ else -⌊-q + 1 / 2⌋

/-- `.round() ... as i8`: the rounded float cast to `i8`, which saturates
to `[-128, 127]` and sends NaN to `0`. -/
def roundToI8 : Fl → ℤ
  | .nan => 0
  | .val q => max (-128) (min 127 (rustRound q))

/-- `.round() ... as u8`: the rounded float cast to `u8`, which saturates
to `[0, 255]` and sends NaN to `0`. -/
def roundToU8 : Fl → ℤ
  | .nan => 0
  | .val q => max 0 (min 255 (rustRound q))

/-- Two's-complement reinterpretation into `i8` range: models both
`u8 as i8` and wrapping `i8` overflow. -/
def i8wrap (z : ℤ) : ℤ := (z + 128) % 256 - 128

/-- The display text of `HalfByteConstructionError`. -/
def halfByteErrorMsg : String := "failed to construct a half byte value"

/-- The validated half-byte type `u4` (a `u8` wrapper; the constructor
`from_byte` is the only checked way to build one). -/
structure u4 where
  b : Nat
deriving DecidableEq, Repr

/-- `u4::from_byte`: succeeds exactly when the byte is at most `0b1111`,
otherwise returns the construction error. -/
def u4.from_byte (byte_value : Nat) : Except String u4 :=
  if byte_value > 15 then .error halfByteErrorMsg else .ok ⟨byte_value⟩

/-- The Q4_0-style symmetric scheme: one fitted parameter. -/
structure ScaledQuant where
  scaling_factor : Fl
deriving DecidableEq, Repr

/-- The Q4_1-style asymmetric scheme: two fitted parameters. -/
structure OffsetQuant where
  scaling_factor : Fl
  offset_factor : Fl
deriving DecidableEq, Repr

/-- One fold step of `Iterator::max_by` with the comparator
`|f1, f2| f1.partial_cmp(f2).unwrap()`: `none` models the `unwrap`
abort on an incomparable pair; on `Ordering::Greater` the accumulator is
kept, otherwise the new element is taken (last maximal element wins). -/
def maxByStep (acc x : Fl) : Option Fl :=
  match acc.partialCmp x with
  | none => none
  | some .gt => some acc
  | some _ => some x

/-- `ScaledQuant::from_values`: `max_by` over the sample (aborting on an
incomparable pair), `.unwrap()` (aborting on an empty sample, modelled by
`none`), then `.abs() / 7`. -/
def ScaledQuant.from_values : List Fl → Option ScaledQuant
  | [] => none
  | x :: xs => (xs.foldlM maxByStep x).map fun m => ⟨m.abs.div (Fl.val 7)⟩

/-- The zero-guarded reciprocal computed (inline, identically) at the top
of both `quantize` implementations: `0` when the scaling factor is zero,
`1 / scaling_factor` otherwise. -/
def guardedInv (s : Fl) : Fl :=
  if s.isZero then Fl.val 0 else (Fl.val 1).div s

/-- `ScaledQuant::quantize`: round the scaled value, cast to `i8`, add 8
(wrapping `i8` addition), clamp with `.min(15).max(0)`, cast to `u8`, and
construct the half byte; the final `.unwrap()` is modelled by `Option`. -/
def ScaledQuant.quantize (sq : ScaledQuant) (value : Fl) : Option u4 :=
  match u4.from_byte
      ((max 0 (min 15 (i8wrap (roundToI8 (value.mul (guardedInv sq.scaling_factor)) + 8)))).toNat) with
  | .ok u => some u
  | .error _ => none

/-- `ScaledQuant::dequantize`: `(code as i8 - 8) * scaling_factor`, with
the `u8 -> i8` bitcast and the wrapping `i8` subtraction made explicit. -/
def ScaledQuant.dequantize (sq : ScaledQuant) (half_byte : u4) : Fl :=
  (Fl.val ((i8wrap (i8wrap (half_byte.b : ℤ) - 8) : ℤ) : ℚ)).mul sq.scaling_factor

/-- The `f32` finite extreme used for `E::max_value()`; `E::min_value()`
is its negation. -/
def f32Max : ℚ := (2 ^ 24 - 1) * 2 ^ 104

/-- One loop iteration of `OffsetQuant::from_values`: the running minimum
is replaced only when `min.partial_cmp(v)` is `Some(Greater)`, the running
maximum only when `max.partial_cmp(v)` is `Some(Less)`; an incomparable
(NaN) element therefore updates neither. -/
def offsetFitStep (mm : Fl × Fl) (v : Fl) : Fl × Fl :=
  (if mm.1.partialCmp v = some Ordering.gt then v else mm.1,
   if mm.2.partialCmp v = some Ordering.lt then v else mm.2)

/-- `OffsetQuant::from_values`: scan from the sentinels
`(E::max_value(), E::min_value())`, then `scaling_factor = (max - min) / 15`
and `offset_factor = min`. No operation here can abort, so the result is
total — in particular an empty sample silently yields the degenerate
sentinel-derived instance. -/
def OffsetQuant.from_values (values : List Fl) : OffsetQuant :=
  match values.foldl offsetFitStep (Fl.val f32Max, Fl.val (-f32Max)) with
  | (mn, mx) => ⟨(mx.sub mn).div (Fl.val 15), mn⟩

/-- `OffsetQuant::quantize`: round the offset-scaled value, cast to `u8`
(saturating), clamp with `.min(15).max(0)`, construct the half byte. -/
def OffsetQuant.quantize (oq : OffsetQuant) (value : Fl) : Option u4 :=
  match u4.from_byte
      ((max 0 (min 15 (roundToU8 ((value.sub oq.offset_factor).mul (guardedInv oq.scaling_factor))))).toNat) with
  | .ok u => some u
  | .error _ => none

/-- `OffsetQuant::dequantize`: `code * scaling_factor + offset_factor`. -/
def OffsetQuant.dequantize (oq : OffsetQuant) (half_byte : u4) : Fl :=
  ((Fl.val (half_byte.b : ℚ)).mul oq.scaling_factor).add oq.offset_factor

/-!
The dropout kernel. The storage-iteration layer (`iter_blocks_mut`) is not
part of the excerpted source; following §4.3 of the specification it is
modelled from the spec as an in-index-order traversal of the logical
elements that can read and overwrite each element exactly once. The seeded
generator `StdRng::seed_from_u64(seed)` is modelled by the function
`draws : ℕ → _` giving the i-th uniform sample of the stream determined by
the seed; forward and backward receiving the same `draws` models their
re-seeding from the same `seed`.

Two granularities are embedded: `dropoutForward`/`dropoutBackward` work on
the logical element values (exact rationals), and `qForwardScaled` works
on the packed storage itself — a list of half-byte codes read through
`dequantize` and written back through `quantize` of a `ScaledQuant`
scheme.
-/

/-- The element loop of `forward`, carrying the index of the next random
draw: draw `u`; if `u < p` store zero, else store the element divided by
`1 - p`. -/
def dropoutForwardGo (draws : ℕ → ℚ) (p : ℚ) : ℕ → List ℚ → List ℚ
  | _, [] => []
  | i, x :: xs =>
      (if draws i < p then 0 else x / (1 - p)) :: dropoutForwardGo draws p (i + 1) xs

/-- `forward` of the dropout kernel over the logical elements. -/
def dropoutForward (draws : ℕ → ℚ) (p : ℚ) (inp : List ℚ) : List ℚ :=
  dropoutForwardGo draws p 0 inp

/-- The element loop of `backward`: draw `u`; accumulate
`(if u < p then 0 else (1 - p).recip()) * grad_out[i]` onto
`grad_inp[i]`. The second pattern (gradient output exhausted) is
unreachable under the kernel's length precondition. -/
def dropoutBackwardGo (draws : ℕ → ℚ) (p : ℚ) : ℕ → List ℚ → List ℚ → List ℚ
  | _, [], _ => []
  | _, gi :: gis, [] => gi :: gis
  | i, gi :: gis, go :: gos =>
      (gi + (if draws i < p then 0 else (1 - p)⁻¹) * go) :: dropoutBackwardGo draws p (i + 1) gis gos

/-- `backward` of the dropout kernel over the logical elements. -/
def dropoutBackward (draws : ℕ → ℚ) (p : ℚ) (gin gout : List ℚ) : List ℚ :=
  dropoutBackwardGo draws p 0 gin gout

/-- The element loop of `forward` at storage level for a `ScaledQuant`
scheme: each visited code is dequantized, transformed exactly as in the
kernel (`if u < p { zero } else { x / (1 - p) }`), and the result is
requantized into the output storage. -/
def qForwardScaledGo (sq : ScaledQuant) (draws : ℕ → Fl) (p : Fl) :
    ℕ → List u4 → List (Option u4)
  | _, [] => []
  | i, c :: cs =>
      sq.quantize (if Fl.lt (draws i) p then Fl.val 0
        else (sq.dequantize c).div ((Fl.val 1).sub p)) ::
      qForwardScaledGo sq draws p (i + 1) cs

/-- `forward` of the dropout kernel over the packed storage of a
`ScaledQuant` tensor. -/
def qForwardScaled (sq : ScaledQuant) (draws : ℕ → Fl) (p : Fl) (codes : List u4) :
    List (Option u4) :=
  qForwardScaledGo sq draws p 0 codes

/-- Modelled from the spec: `scaling_factor = max(|v_i|) / 7` over the
sample — the maximum of the absolute values (stated for a nonempty sample;
the `0` seed is absorbed since absolute values are nonnegative). -/
def specMaxAbsScaling (l : List ℚ) : ℚ :=
  (l.foldl (fun a v => max a |v|) 0) / 7

/-!
Theorems. Each claim of the specification is settled by exactly one
theorem below (with a witness theorem when hypotheses are present, and a
counterexample theorem where the claim as stated fails on the code).
-/

/-- C1: evaluation at the failing sample `[-10, 2]`, whose negative
element dominates in magnitude. The code applies `abs` after taking the
(signed) maximum, so it returns `|max v| / 7 = 2/7`, while the documented
fit is `max(|v|) / 7 = 10/7`. -/
theorem scaled_fit_takes_abs_of_max :
    ScaledQuant.from_values [Fl.val (-10), Fl.val 2] = some ⟨Fl.val (2 / 7)⟩ ∧
    specMaxAbsScaling [(-10 : ℚ), 2] = 10 / 7 ∧ (2 / 7 : ℚ) ≠ 10 / 7 := by
  refine ⟨?_, ?_, by norm_num⟩
  · norm_num [ScaledQuant.from_values, maxByStep, Fl.partialCmp, Fl.abs, Fl.div, List.foldlM]
  · norm_num [specMaxAbsScaling]

/-- C4 counterexample: `OffsetQuant::from_values` on the empty sequence
does not fail — it silently returns a fitted instance, built from the
`E::max_value()` / `E::min_value()` sentinels. -/
theorem offset_from_values_empty_returns_instance :
    OffsetQuant.from_values [] = ⟨Fl.val ((-f32Max - f32Max) / 15), Fl.val f32Max⟩ := by
  norm_num [OffsetQuant.from_values, Fl.sub, Fl.div, f32Max]

/-- C4 amended: on the empty sequence `ScaledQuant::from_values` fails
(the `unwrap` of the empty maximum aborts), but `OffsetQuant::from_values`
silently returns the degenerate sentinel-derived instance with
`offset_factor = E::max_value()` and a negative scaling factor. -/
theorem from_values_empty_asymmetry :
    ScaledQuant.from_values [] = none ∧
    OffsetQuant.from_values [] = ⟨Fl.val ((-f32Max - f32Max) / 15), Fl.val f32Max⟩ := by
  refine ⟨rfl, ?_⟩
  norm_num [OffsetQuant.from_values, Fl.sub, Fl.div, f32Max]

/-- C7: Scenario A. Fitting `ScaledQuant` from `[-4, 2, 7]` gives scaling
factor `1`; on that scheme `quantize 7 = 15`, `quantize (-4) = 4`, and
`dequantize 4 = -4` exactly. -/
theorem scaled_scenario_a :
    ScaledQuant.from_values [Fl.val (-4), Fl.val 2, Fl.val 7] = some ⟨Fl.val 1⟩ ∧
    ScaledQuant.quantize ⟨Fl.val 1⟩ (Fl.val 7) = some ⟨15⟩ ∧
    ScaledQuant.quantize ⟨Fl.val 1⟩ (Fl.val (-4)) = some ⟨4⟩ ∧
    ScaledQuant.dequantize ⟨Fl.val 1⟩ ⟨4⟩ = Fl.val (-4) := by
  refine ⟨?_, ?_, ?_, ?_⟩
  · norm_num [ScaledQuant.from_values, maxByStep, Fl.partialCmp, Fl.abs, Fl.div, List.foldlM]
  · norm_num [ScaledQuant.quantize, guardedInv, Fl.isZero, Fl.div, Fl.mul, roundToI8,
      rustRound, i8wrap, u4.from_byte]
    rfl
  · norm_num [ScaledQuant.quantize, guardedInv, Fl.isZero, Fl.div, Fl.mul, roundToI8,
      rustRound, i8wrap, u4.from_byte]
    rfl
  · norm_num [ScaledQuant.dequantize, Fl.mul, i8wrap]

/-- C9: `u4::from_byte` on any 8-bit input succeeds with the same value
exactly when the input is at most 15, and returns the construction error
(whose display text is `halfByteErrorMsg`) exactly when it exceeds 15. -/
theorem from_byte_ok_iff_in_range (raw : ℕ) (hr : raw < 256) :
    (raw ≤ 15 → u4.from_byte raw = .ok ⟨raw⟩) ∧
    (15 < raw → u4.from_byte raw = .error halfByteErrorMsg) := by
  refine ⟨fun h => ?_, fun h => ?_⟩
  · rw [u4.from_byte, if_neg (by omega)]
  · rw [u4.from_byte, if_pos (by omega)]

/-- C9 witness: the theorem applied at the concrete byte 20. -/
theorem from_byte_ok_iff_in_range_witness :
    20 < 256 ∧ ((20 ≤ 15 → u4.from_byte 20 = .ok ⟨20⟩) ∧
      (15 < 20 → u4.from_byte 20 = .error halfByteErrorMsg)) :=
  ⟨by norm_num, from_byte_ok_iff_in_range 20 (by norm_num)⟩

/-- C10 counterexample: a singleton NaN sample does not make
`ScaledQuant::from_values` abort — `max_by` performs no comparison on a
one-element iterator, so the fit silently returns a NaN scaling factor. -/
theorem scaled_fit_singleton_nan_total :
    ScaledQuant.from_values [Fl.nan] = some ⟨Fl.nan⟩ := rfl

/-- C8 counterexample: with `p = 0` and a zero scaling factor, the forward
pass rewrites the stored code 0 to the zero code 8 (the logical value, 0,
is unchanged, but the stored code is not). -/
theorem forward_p_zero_zero_scale_code_change :
    qForwardScaled ⟨Fl.val 0⟩ (fun _ => Fl.val (1 / 2)) (Fl.val 0) [⟨0⟩] = [some ⟨8⟩] ∧
    some (⟨8⟩ : u4) ≠ some (⟨0⟩ : u4) := by
  refine ⟨?_, by decide⟩
  norm_num [qForwardScaled, qForwardScaledGo, ScaledQuant.quantize, ScaledQuant.dequantize,
    guardedInv, Fl.isZero, Fl.div, Fl.mul, Fl.sub, Fl.lt, roundToI8, rustRound, i8wrap,
    u4.from_byte]
  rfl

/-- Helper: `from_byte` succeeds on any byte at most 15. -/
theorem from_byte_of_le (n : ℕ) (h : n ≤ 15) : u4.from_byte n = .ok ⟨n⟩ := by
  rw [u4.from_byte, if_neg (by omega)]

/-- Helper: `ScaledQuant::quantize` always succeeds, with a code in
`[0, 15]` — the clamp guarantees the range before construction. -/
theorem scaled_quantize_total (sq : ScaledQuant) (v : Fl) :
    ∃ u, sq.quantize v = some u ∧ u.b ≤ 15 := by
  refine ⟨⟨(max 0 (min 15 (i8wrap (roundToI8 (v.mul (guardedInv sq.scaling_factor)) + 8)))).toNat⟩,
    ?_, show (max 0 (min 15 (i8wrap (roundToI8 (v.mul (guardedInv sq.scaling_factor)) + 8)))).toNat ≤ 15 by omega⟩
  rw [ScaledQuant.quantize, from_byte_of_le _ (by omega)]

/-- Helper: `OffsetQuant::quantize` always succeeds, with a code in
`[0, 15]`. -/
theorem offset_quantize_total (oq : OffsetQuant) (v : Fl) :
    ∃ u, oq.quantize v = some u ∧ u.b ≤ 15 := by
  refine ⟨⟨(max 0 (min 15 (roundToU8 ((v.sub oq.offset_factor).mul (guardedInv oq.scaling_factor))))).toNat⟩,
    ?_, show (max 0 (min 15 (roundToU8 ((v.sub oq.offset_factor).mul (guardedInv oq.scaling_factor))))).toNat ≤ 15 by omega⟩
  rw [OffsetQuant.quantize, from_byte_of_le _ (by omega)]

/-- C3: for every floating input and every fitted instance of either
scheme, `quantize` yields a code in `[0, 15]` and the half-byte
construction after the clamp never fails. -/
theorem quantize_code_in_range (sq : ScaledQuant) (oq : OffsetQuant) (v w : Fl) :
    (∃ u, sq.quantize v = some u ∧ u.b ≤ 15) ∧
    (∃ u, oq.quantize w = some u ∧ u.b ≤ 15) :=
  ⟨scaled_quantize_total sq v, offset_quantize_total oq w⟩

/-- Helper: the element written by the forward loop at offset `i` of the
remaining list, with draw counter starting at `k`. -/
theorem dropoutForwardGo_getD (draws : ℕ → ℚ) (p : ℚ) (l : List ℚ) :
    ∀ k i : ℕ, i < l.length →
      (dropoutForwardGo draws p k l).getD i 0 =
        if draws (k + i) < p then 0 else l.getD i 0 / (1 - p) := by
  induction l with
  | nil => intro k i hi; simp at hi
  | cons x xs ih =>
      intro k i hi
      cases i with
      | zero => simp [dropoutForwardGo]
      | succ j =>
          have hj : j < xs.length := by simpa using hi
          have hk : k + 1 + j = k + (j + 1) := by omega
          simp only [dropoutForwardGo, List.getD_cons_succ]
          rw [ih (k + 1) j hj, hk]

/-- Helper: the element written by the backward loop at offset `i`, with
draw counter starting at `k`. -/
theorem dropoutBackwardGo_getD (draws : ℕ → ℚ) (p : ℚ) (gin : List ℚ) :
    ∀ (gout : List ℚ) (k i : ℕ), i < gin.length → i < gout.length →
      (dropoutBackwardGo draws p k gin gout).getD i 0 =
        gin.getD i 0 + (if draws (k + i) < p then 0 else (1 - p)⁻¹) * gout.getD i 0 := by
  induction gin with
  | nil => intro gout k i hi _; simp at hi
  | cons gi gis ih =>
      intro gout k i hi hgo
      cases gout with
      | nil => simp at hgo
      | cons go gos =>
          cases i with
          | zero => simp [dropoutBackwardGo]
          | succ j =>
              have hj : j < gis.length := by simpa using hi
              have hj' : j < gos.length := by simpa using hgo
              have hk : k + 1 + j = k + (j + 1) := by omega
              simp only [dropoutBackwardGo, List.getD_cons_succ]
              rw [ih gos (k + 1) j hj hj', hk]

/-- Helper: the backward loop writes a gradient buffer of unchanged
length. -/
theorem dropoutBackwardGo_length (draws : ℕ → ℚ) (p : ℚ) :
    ∀ (gin gout : List ℚ) (k : ℕ),
      (dropoutBackwardGo draws p k gin gout).length = gin.length := by
  intro gin
  induction gin with
  | nil => intro gout k; rfl
  | cons gi gis ih =>
      intro gout k
      cases gout with
      | nil => rfl
      | cons go gos => simpa [dropoutBackwardGo] using ih gos (k + 1)

/-- C2: for one seed (one draw stream) and probability `p < 1`, at every
index holding a nonzero input element and a nonzero output gradient, the
forward pass writes zero exactly when the index's draw is below `p`, and
the backward pass leaves the accumulated gradient unchanged (adds a zero
contribution) exactly when that same draw is below `p` — so the zeroed
index set and the zero-contribution index set coincide; no mask is stored,
the same regenerated stream decides both. -/
theorem dropout_mask_consistency (draws : ℕ → ℚ) (p : ℚ) (inp gin gout : List ℚ) (i : ℕ)
    (hp : p < 1) (hi : i < inp.length) (hgi : i < gin.length) (hgo : i < gout.length)
    (hx : inp.getD i 0 ≠ 0) (hg : gout.getD i 0 ≠ 0) :
    ((dropoutForward draws p inp).getD i 0 = 0 ↔ draws i < p) ∧
    ((dropoutBackward draws p gin gout).getD i 0 = gin.getD i 0 ↔ draws i < p) := by
  have h1p : (1 : ℚ) - p ≠ 0 := sub_ne_zero.mpr (Ne.symm (ne_of_lt hp))
  constructor
  · rw [dropoutForward, dropoutForwardGo_getD draws p inp 0 i hi, Nat.zero_add]
    constructor
    · intro h
      by_contra hc
      rw [if_neg hc] at h
      rcases div_eq_zero_iff.mp h with h0 | h0
      · exact hx h0
      · exact h1p h0
    · intro h; rw [if_pos h]
  · rw [dropoutBackward, dropoutBackwardGo_getD draws p gin gout 0 i hgi hgo, Nat.zero_add]
    constructor
    · intro h
      have hm := add_right_eq_self.mp h
      rcases mul_eq_zero.mp hm with h0 | h0
      · by_contra hc
        rw [if_neg hc] at h0
        exact inv_ne_zero h1p h0
      · exact absurd h0 hg
    · intro h; rw [if_pos h]; ring

/-- C2 witness: the theorem applied at a dropped index (draw 1/2 below
p = 3/4) of concrete one-element tensors. -/
theorem dropout_mask_consistency_witness :
    ((3 : ℚ) / 4 < 1 ∧ 0 < [(5 : ℚ)].length ∧ 0 < [(2 : ℚ)].length ∧ 0 < [(3 : ℚ)].length ∧
      [(5 : ℚ)].getD 0 0 ≠ 0 ∧ [(3 : ℚ)].getD 0 0 ≠ 0) ∧
    (((dropoutForward (fun _ => 1 / 2) (3 / 4) [5]).getD 0 0 = 0 ↔ (fun _ => (1 : ℚ) / 2) 0 < 3 / 4) ∧
      ((dropoutBackward (fun _ => 1 / 2) (3 / 4) [2] [3]).getD 0 0 = [(2 : ℚ)].getD 0 0 ↔
        (fun _ => (1 : ℚ) / 2) 0 < 3 / 4)) :=
  ⟨⟨by norm_num, by norm_num, by norm_num, by norm_num, by norm_num, by norm_num⟩,
    dropout_mask_consistency (fun _ => 1 / 2) (3 / 4) [5] [2] [3] 0
      (by norm_num) (by norm_num) (by norm_num) (by norm_num) (by norm_num) (by norm_num)⟩

/-- C6: in the same traversal order as forward and with `p < 1`, each
backward step accumulates onto `grad_input[i]` exactly
`grad_output[i] / (1 - p)` when the index's draw is at least `p` and zero
when it is below `p`; the output buffer keeps the length of `grad_input`,
and each element is determined by its own index alone. -/
theorem dropout_backward_accumulates (draws : ℕ → ℚ) (p : ℚ) (gin gout : List ℚ) (i : ℕ)
    (_hp : p < 1) (hi : i < gin.length) (hgo : i < gout.length) :
    (dropoutBackward draws p gin gout).getD i 0 =
      gin.getD i 0 + (if draws i < p then 0 else gout.getD i 0 / (1 - p)) ∧
    (dropoutBackward draws p gin gout).length = gin.length := by
  constructor
  · rw [dropoutBackward, dropoutBackwardGo_getD draws p gin gout 0 i hi hgo, Nat.zero_add]
    split
    · ring
    · rw [div_eq_mul_inv, mul_comm]
  · exact dropoutBackwardGo_length draws p gin gout 0

/-- C6 witness: the theorem applied at index 1 of two-element buffers with
a surviving draw (1/2 at least p = 1/4). -/
theorem dropout_backward_accumulates_witness :
    ((1 : ℚ) / 4 < 1 ∧ 1 < [(1 : ℚ), 2].length ∧ 1 < [(10 : ℚ), 20].length) ∧
    ((dropoutBackward (fun _ => 1 / 2) (1 / 4) [1, 2] [10, 20]).getD 1 0 =
        [(1 : ℚ), 2].getD 1 0 +
          (if (fun _ => (1 : ℚ) / 2) 1 < 1 / 4 then 0 else [(10 : ℚ), 20].getD 1 0 / (1 - 1 / 4)) ∧
      (dropoutBackward (fun _ => 1 / 2) (1 / 4) [1, 2] [10, 20]).length = [(1 : ℚ), 2].length) :=
  ⟨⟨by norm_num, by norm_num, by norm_num⟩,
    dropout_backward_accumulates (fun _ => 1 / 2) (1 / 4) [1, 2] [10, 20] 1
      (by norm_num) (by norm_num) (by norm_num)⟩

/-- Helper: `max_by` folding a constant finite value over copies of
itself stays put (equal elements compare `eq`, taking the last). -/
theorem foldlM_maxByStep_const (c : ℚ) :
    ∀ n : ℕ, (List.replicate n (Fl.val c)).foldlM maxByStep (Fl.val c) = some (Fl.val c) := by
  intro n
  induction n with
  | zero => rfl
  | succ m ih =>
      rw [List.replicate_succ, List.foldlM_cons]
      have hstep : maxByStep (Fl.val c) (Fl.val c) = some (Fl.val c) := by
        simp [maxByStep, Fl.partialCmp]
      rw [hstep]
      exact ih

/-- Helper: fitting `ScaledQuant` from a constant sample gives
`|c| / 7`. -/
theorem scaled_from_values_replicate (c : ℚ) (n : ℕ) :
    ScaledQuant.from_values (List.replicate (n + 1) (Fl.val c)) = some ⟨Fl.val (|c| / 7)⟩ := by
  rw [List.replicate_succ]
  show ((List.replicate n (Fl.val c)).foldlM maxByStep (Fl.val c)).map _ = _
  rw [foldlM_maxByStep_const c n]
  simp [Fl.abs, Fl.div]

/-- Helper: the running-minimum side of the sentinel step. -/
theorem offsetFitStep_min (c : ℚ) (h2 : c ≤ f32Max) :
    (if (Fl.val f32Max).partialCmp (Fl.val c) = some Ordering.gt then Fl.val c
      else Fl.val f32Max) = Fl.val c := by
  rcases eq_or_lt_of_le h2 with he | hlt
  · subst he; simp
  · simp [Fl.partialCmp, not_lt.mpr h2, hlt]

/-- Helper: the running-maximum side of the sentinel step. -/
theorem offsetFitStep_max (c : ℚ) (h1 : -f32Max ≤ c) :
    (if (Fl.val (-f32Max)).partialCmp (Fl.val c) = some Ordering.lt then Fl.val c
      else Fl.val (-f32Max)) = Fl.val c := by
  rcases eq_or_lt_of_le h1 with he | hlt
  · subst he; simp
  · simp [Fl.partialCmp, hlt]

/-- Helper: one `OffsetQuant` fit step from the sentinels on an in-range
finite value lands on that value for both running extremes. -/
theorem offsetFitStep_sentinel (c : ℚ) (h1 : -f32Max ≤ c) (h2 : c ≤ f32Max) :
    offsetFitStep (Fl.val f32Max, Fl.val (-f32Max)) (Fl.val c) = (Fl.val c, Fl.val c) := by
  show (if (Fl.val f32Max).partialCmp (Fl.val c) = some Ordering.gt then Fl.val c
      else Fl.val f32Max,
    if (Fl.val (-f32Max)).partialCmp (Fl.val c) = some Ordering.lt then Fl.val c
      else Fl.val (-f32Max)) = (Fl.val c, Fl.val c)
  rw [offsetFitStep_min c h2, offsetFitStep_max c h1]

/-- Helper: an `OffsetQuant` fit step is inert on an already-reached
constant. -/
theorem offsetFitStep_const (c : ℚ) :
    offsetFitStep (Fl.val c, Fl.val c) (Fl.val c) = (Fl.val c, Fl.val c) := by
  simp [offsetFitStep, Fl.partialCmp]

/-- Helper: fitting `OffsetQuant` from a constant in-range sample gives a
zero scaling factor and the constant as offset. -/
theorem offset_from_values_replicate (c : ℚ) (n : ℕ) (h1 : -f32Max ≤ c) (h2 : c ≤ f32Max) :
    OffsetQuant.from_values (List.replicate (n + 1) (Fl.val c)) = ⟨Fl.val 0, Fl.val c⟩ := by
  have hfold : ∀ m : ℕ,
      (List.replicate m (Fl.val c)).foldl offsetFitStep (Fl.val c, Fl.val c) =
        (Fl.val c, Fl.val c) := by
    intro m
    induction m with
    | zero => rfl
    | succ k ih => rw [List.replicate_succ, List.foldl_cons, offsetFitStep_const]; exact ih
  rw [OffsetQuant.from_values, List.replicate_succ, List.foldl_cons,
    offsetFitStep_sentinel c h1 h2, hfold n]
  simp [Fl.sub, Fl.div]

/-- Helper: the guarded reciprocal of a finite scaling factor is finite:
zero scale is special-cased to an inverse of zero, and a nonzero finite
scale has a finite reciprocal. -/
theorem guardedInv_val_ne_nan (q : ℚ) : guardedInv (Fl.val q) ≠ Fl.nan := by
  by_cases h : q = 0 <;> simp [guardedInv, Fl.isZero, Fl.div, h]

/-- C5: fitting either scheme from a constant in-range sample yields a
scheme whose guarded reciprocal is finite (never NaN: a zero scale is
substituted by a zero inverse rather than divided), on which every
`quantize` call succeeds and every `dequantize` call returns a finite
value. -/
theorem constant_fit_zero_scale_safe (c : ℚ) (n : ℕ) (v : Fl) (hb : u4)
    (h1 : -f32Max ≤ c) (h2 : c ≤ f32Max) :
    (∃ sq : ScaledQuant,
      ScaledQuant.from_values (List.replicate (n + 1) (Fl.val c)) = some sq ∧
      guardedInv sq.scaling_factor ≠ Fl.nan ∧
      (∃ u, sq.quantize v = some u) ∧ (∃ q, sq.dequantize hb = Fl.val q)) ∧
    (guardedInv (OffsetQuant.from_values (List.replicate (n + 1) (Fl.val c))).scaling_factor ≠
        Fl.nan ∧
      (∃ u, (OffsetQuant.from_values (List.replicate (n + 1) (Fl.val c))).quantize v = some u) ∧
      (∃ q, (OffsetQuant.from_values (List.replicate (n + 1) (Fl.val c))).dequantize hb =
        Fl.val q)) := by
  constructor
  · refine ⟨⟨Fl.val (|c| / 7)⟩, scaled_from_values_replicate c n, guardedInv_val_ne_nan _, ?_, ?_⟩
    · obtain ⟨u, hu, _⟩ := scaled_quantize_total ⟨Fl.val (|c| / 7)⟩ v
      exact ⟨u, hu⟩
    · exact ⟨((i8wrap (i8wrap (hb.b : ℤ) - 8) : ℤ) : ℚ) * (|c| / 7),
        by simp [ScaledQuant.dequantize, Fl.mul]⟩
  · rw [offset_from_values_replicate c n h1 h2]
    refine ⟨guardedInv_val_ne_nan _, ?_, ?_⟩
    · obtain ⟨u, hu, _⟩ := offset_quantize_total ⟨Fl.val 0, Fl.val c⟩ v
      exact ⟨u, hu⟩
    · exact ⟨(hb.b : ℚ) * 0 + c, by simp [OffsetQuant.dequantize, Fl.mul, Fl.add]⟩

/-- C5 witness: the theorem applied to the constant sample `[3, 3]`, the
input `NaN`, and the code 4. -/
theorem constant_fit_zero_scale_safe_witness :
    (-f32Max ≤ (3 : ℚ) ∧ (3 : ℚ) ≤ f32Max) ∧
    ((∃ sq : ScaledQuant,
        ScaledQuant.from_values (List.replicate (1 + 1) (Fl.val 3)) = some sq ∧
        guardedInv sq.scaling_factor ≠ Fl.nan ∧
        (∃ u, sq.quantize Fl.nan = some u) ∧ (∃ q, sq.dequantize ⟨4⟩ = Fl.val q)) ∧
      (guardedInv (OffsetQuant.from_values (List.replicate (1 + 1) (Fl.val 3))).scaling_factor ≠
          Fl.nan ∧
        (∃ u, (OffsetQuant.from_values (List.replicate (1 + 1) (Fl.val 3))).quantize Fl.nan =
          some u) ∧
        (∃ q, (OffsetQuant.from_values (List.replicate (1 + 1) (Fl.val 3))).dequantize ⟨4⟩ =
          Fl.val q))) :=
  ⟨⟨by norm_num [f32Max], by norm_num [f32Max]⟩,
    constant_fit_zero_scale_safe 3 1 Fl.nan ⟨4⟩ (by norm_num [f32Max]) (by norm_num [f32Max])⟩

/-- Helper: rounding a float that is exactly an integer returns that
integer. -/
theorem rustRound_intCast (m : ℤ) : rustRound (m : ℚ) = m := by
  rw [rustRound]
  split
  · rw [show ((m : ℚ) + 1 / 2) = (1 / 2 : ℚ) + m by ring, Int.floor_add_int]
    norm_num
  · rw [show (-(m : ℚ) + 1 / 2) = (1 / 2 : ℚ) + ((-m : ℤ) : ℚ) by push_cast; ring,
      Int.floor_add_int]
    norm_num

/-- Helper: dividing a float by one is the identity. -/
theorem Fl.div_one (x : Fl) : x.div (Fl.val 1) = x := by
  cases x with
  | nan => rfl
  | val a => simp [Fl.div]

/-- Helper: requantizing the dequantization of a valid stored code always
succeeds and preserves the logical value; when the scaling factor is
finite and nonzero it returns the very same code (with a zero or NaN
scaling factor every code collapses to the zero code 8, whose logical
value is the same). -/
theorem scaled_requantize (sq : ScaledQuant) (c : u4) (hc : c.b ≤ 15) :
    ∃ u : u4, sq.quantize (sq.dequantize c) = some u ∧
      sq.dequantize u = sq.dequantize c ∧
      (∀ σ : ℚ, sq.scaling_factor = Fl.val σ → σ ≠ 0 → u = c) := by
  obtain ⟨s⟩ := sq
  cases s with
  | nan =>
      have hdeq : ScaledQuant.dequantize ⟨Fl.nan⟩ c = Fl.nan := by
        simp [ScaledQuant.dequantize, Fl.mul]
      refine ⟨⟨8⟩, ?_, ?_, fun σ h _ => by cases h⟩
      · rw [hdeq]
        norm_num [ScaledQuant.quantize, guardedInv, Fl.isZero, Fl.div, Fl.mul, roundToI8,
          i8wrap, u4.from_byte]
        rfl
      · rw [hdeq]
        simp [ScaledQuant.dequantize, Fl.mul]
  | val σ =>
      by_cases hσ : σ = 0
      · subst hσ
        have hdeq : ScaledQuant.dequantize ⟨Fl.val 0⟩ c = Fl.val 0 := by
          simp [ScaledQuant.dequantize, Fl.mul]
        refine ⟨⟨8⟩, ?_, ?_, fun σ' h hne => by injection h with h'; exact absurd h'.symm hne⟩
        · rw [hdeq]
          norm_num [ScaledQuant.quantize, guardedInv, Fl.isZero, Fl.div, Fl.mul, roundToI8,
            rustRound, i8wrap, u4.from_byte]
          rfl
        · rw [hdeq]
          simp [ScaledQuant.dequantize, Fl.mul]
      · have hcz : (c.b : ℤ) ≤ 15 := by exact_mod_cast hc
        have hk1 : i8wrap (c.b : ℤ) = (c.b : ℤ) := by unfold i8wrap; omega
        have hk2 : i8wrap ((c.b : ℤ) - 8) = (c.b : ℤ) - 8 := by unfold i8wrap; omega
        have hdeq : ScaledQuant.dequantize ⟨Fl.val σ⟩ c =
            Fl.val ((((c.b : ℤ) : ℚ) - 8) * σ) := by
          rw [ScaledQuant.dequantize, hk1, hk2]
          simp [Fl.mul]
        refine ⟨c, ?_, rfl, fun _ _ _ => rfl⟩
        rw [hdeq, ScaledQuant.quantize]
        have hinv : guardedInv (Fl.val σ) = Fl.val (1 / σ) := by
          simp [guardedInv, Fl.isZero, hσ, Fl.div]
        rw [hinv]
        have hmul : (Fl.val ((((c.b : ℤ) : ℚ) - 8) * σ)).mul (Fl.val (1 / σ)) =
            Fl.val (((c.b : ℤ) : ℚ) - 8) := by
          simp [Fl.mul]
          field_simp
        rw [hmul]
        have hround : roundToI8 (Fl.val (((c.b : ℤ) : ℚ) - 8)) = (c.b : ℤ) - 8 := by
          rw [roundToI8]
          rw [show (((c.b : ℤ) : ℚ) - 8) = (((c.b : ℤ) - 8 : ℤ) : ℚ) by push_cast; ring,
            rustRound_intCast]
          omega
        rw [hround]
        rw [show (c.b : ℤ) - 8 + 8 = (c.b : ℤ) by ring, hk1]
        rw [show (max 0 (min 15 (c.b : ℤ))).toNat = c.b by omega, from_byte_of_le _ hc]

/-- Helper: a uniform draw in `[0, 1)` is never below a probability of
zero. -/
theorem Fl_lt_nonneg_zero (x : Fl) (hx : ∃ q : ℚ, x = Fl.val q ∧ 0 ≤ q ∧ q < 1) :
    Fl.lt x (Fl.val 0) = false := by
  obtain ⟨q, rfl, h0, _⟩ := hx
  rw [Fl.lt]
  exact decide_eq_false (not_lt.mpr h0)

/-- Helper: the forward loop with `p = 0`, at any draw offset, preserves
every logical element, and preserves every stored code when the scaling
factor is finite and nonzero. -/
theorem qForwardScaledGo_p_zero (sq : ScaledQuant) (draws : ℕ → Fl)
    (hd : ∀ i, ∃ q : ℚ, draws i = Fl.val q ∧ 0 ≤ q ∧ q < 1) :
    ∀ (codes : List u4), (∀ c ∈ codes, c.b ≤ 15) → ∀ k,
      ((qForwardScaledGo sq draws (Fl.val 0) k codes).map (fun oc => oc.map sq.dequantize) =
        codes.map (fun c => some (sq.dequantize c))) ∧
      (∀ σ : ℚ, sq.scaling_factor = Fl.val σ → σ ≠ 0 →
        qForwardScaledGo sq draws (Fl.val 0) k codes = codes.map some) := by
  intro codes
  induction codes with
  | nil => intro _ k; exact ⟨rfl, fun _ _ _ => rfl⟩
  | cons c cs ih =>
      intro hv k
      have hc : c.b ≤ 15 := hv c (List.mem_cons_self c cs)
      have hcs : ∀ x ∈ cs, x.b ≤ 15 := fun x hx => hv x (List.mem_cons_of_mem c hx)
      obtain ⟨ihm, ihc⟩ := ih hcs (k + 1)
      have hlt : Fl.lt (draws k) (Fl.val 0) = false := Fl_lt_nonneg_zero _ (hd k)
      have hsub : (Fl.val 1).sub (Fl.val 0) = Fl.val 1 := by norm_num [Fl.sub]
      have helem : (if Fl.lt (draws k) (Fl.val 0) = true then Fl.val 0
          else (sq.dequantize c).div ((Fl.val 1).sub (Fl.val 0))) = sq.dequantize c := by
        rw [hlt, hsub, Fl.div_one]
        simp
      obtain ⟨u, hu, hud, huc⟩ := scaled_requantize sq c hc
      constructor
      · simp only [qForwardScaledGo, List.map_cons]
        rw [helem, hu, ihm]
        simp [hud]
      · intro σ hσ hσne
        simp only [qForwardScaledGo, List.map_cons]
        rw [helem, hu, ihc σ hσ hσne, huc σ hσ hσne]

/-- C8 amended: `forward` with `p = 0` (draws uniform in `[0, 1)`, stored
codes valid) zeroes no element and returns a tensor whose every logical
element equals the corresponding input element; every stored code is also
unchanged provided the scaling factor is finite and nonzero (with a zero
scaling factor the requantization collapses codes to the zero code 8,
still preserving the logical values, which are all zero). -/
theorem forward_p_zero_preserves_elements (sq : ScaledQuant) (codes : List u4)
    (draws : ℕ → Fl) (hd : ∀ i, ∃ q : ℚ, draws i = Fl.val q ∧ 0 ≤ q ∧ q < 1)
    (hv : ∀ c ∈ codes, c.b ≤ 15) :
    ((qForwardScaled sq draws (Fl.val 0) codes).map (fun oc => oc.map sq.dequantize) =
      codes.map (fun c => some (sq.dequantize c))) ∧
    (∀ σ : ℚ, sq.scaling_factor = Fl.val σ → σ ≠ 0 →
      qForwardScaled sq draws (Fl.val 0) codes = codes.map some) :=
  qForwardScaledGo_p_zero sq draws hd codes hv 0

/-- C8 witness: the amended theorem applied to a one-element tensor with
code 4, unit scaling factor, and constant draw 1/2. -/
theorem forward_p_zero_preserves_elements_witness :
    ((∀ i : ℕ, ∃ q : ℚ, (fun _ : ℕ => Fl.val (1 / 2)) i = Fl.val q ∧ 0 ≤ q ∧ q < 1) ∧
      (∀ c ∈ ([⟨4⟩] : List u4), c.b ≤ 15)) ∧
    (((qForwardScaled ⟨Fl.val 1⟩ (fun _ => Fl.val (1 / 2)) (Fl.val 0) [⟨4⟩]).map
        (fun oc => oc.map (ScaledQuant.dequantize ⟨Fl.val 1⟩)) =
      ([⟨4⟩] : List u4).map (fun c => some (ScaledQuant.dequantize ⟨Fl.val 1⟩ c))) ∧
      (∀ σ : ℚ, (⟨Fl.val 1⟩ : ScaledQuant).scaling_factor = Fl.val σ → σ ≠ 0 →
        qForwardScaled ⟨Fl.val 1⟩ (fun _ => Fl.val (1 / 2)) (Fl.val 0) [⟨4⟩] =
          ([⟨4⟩] : List u4).map some)) :=
  ⟨⟨fun _ => ⟨1 / 2, rfl, by norm_num, by norm_num⟩, by decide⟩,
    forward_p_zero_preserves_elements ⟨Fl.val 1⟩ [⟨4⟩] (fun _ => Fl.val (1 / 2))
      (fun _ => ⟨1 / 2, rfl, by norm_num, by norm_num⟩) (by decide)⟩

/-- Helper: a `max_by` comparison whose right operand is NaN aborts. -/
theorem maxByStep_nan_right (acc : Fl) : maxByStep acc Fl.nan = none := by
  cases acc <;> rfl

/-- Helper: a `max_by` comparison whose accumulator is NaN aborts. -/
theorem maxByStep_nan_left (x : Fl) : maxByStep Fl.nan x = none := by
  cases x <;> rfl

/-- Helper: the `max_by` fold aborts as soon as it compares against a NaN
element of the remaining list. -/
theorem foldlM_maxByStep_of_mem_nan :
    ∀ (xs : List Fl) (acc : Fl), Fl.nan ∈ xs → xs.foldlM maxByStep acc = none := by
  intro xs
  induction xs with
  | nil => intro acc h; simp at h
  | cons y ys ih =>
      intro acc h
      rw [List.foldlM_cons]
      rcases List.mem_cons.mp h with hy | hys
      · rw [← hy, maxByStep_nan_right]
        rfl
      · cases hstep : maxByStep acc y with
        | none => rfl
        | some a => simpa [hstep] using ih a hys

/-- Helper: `ScaledQuant::from_values` aborts on any sample of length at
least two containing a NaN (the fold is forced to compare against it). -/
theorem scaled_from_values_of_mem_nan (l : List Fl) (h1 : 2 ≤ l.length) (h2 : Fl.nan ∈ l) :
    ScaledQuant.from_values l = none := by
  match l, h1 with
  | x :: y :: xs, _ =>
    rcases List.mem_cons.mp h2 with hx | htail
    · simp only [ScaledQuant.from_values]
      rw [← hx, List.foldlM_cons, maxByStep_nan_left]
      rfl
    · simp only [ScaledQuant.from_values]
      rw [foldlM_maxByStep_of_mem_nan (y :: xs) x htail]
      rfl

/-- Helper: an `OffsetQuant` fit step is inert on a NaN element (both
`matches!` conditions see an incomparable pair). -/
theorem offsetFitStep_nan (mm : Fl × Fl) : offsetFitStep mm Fl.nan = mm := by
  obtain ⟨a, b⟩ := mm
  cases a <;> cases b <;> simp [offsetFitStep, Fl.partialCmp]

/-- Helper: the `OffsetQuant` min/max scan only ever reads the comparable
(non-NaN) elements. -/
theorem foldl_offsetFitStep_filter :
    ∀ (l : List Fl) (acc : Fl × Fl),
      l.foldl offsetFitStep acc = (l.filter (fun v => !v.isNaN)).foldl offsetFitStep acc := by
  intro l
  induction l with
  | nil => intro acc; rfl
  | cons v t ih =>
      intro acc
      cases v with
      | nan => simp [List.filter_cons, Fl.isNaN, offsetFitStep_nan, ih]
      | val q => simp [List.filter_cons, Fl.isNaN]; exact ih _

/-- C10 amended: the two fits treat NaN asymmetrically.
`ScaledQuant::from_values` panics whenever the sample has at least two
elements and contains a NaN (the singleton NaN sample, where `max_by`
performs no comparison, instead silently yields a NaN scaling factor —
see the counterexample); `OffsetQuant::from_values` never panics on NaN
inputs: it skips incomparable values and fits min/max over the comparable
values only. -/
theorem nan_handling_asymmetry (l l2 : List Fl) (h1 : 2 ≤ l.length) (h2 : Fl.nan ∈ l) :
    ScaledQuant.from_values l = none ∧
    OffsetQuant.from_values l2 = OffsetQuant.from_values (l2.filter (fun v => !v.isNaN)) := by
  refine ⟨scaled_from_values_of_mem_nan l h1 h2, ?_⟩
  rw [OffsetQuant.from_values, OffsetQuant.from_values, foldl_offsetFitStep_filter]

/-- C10 witness: the theorem applied to the samples `[1, NaN]` and
`[NaN, 2]`. -/
theorem nan_handling_asymmetry_witness :
    (2 ≤ ([Fl.val 1, Fl.nan] : List Fl).length ∧ Fl.nan ∈ ([Fl.val 1, Fl.nan] : List Fl)) ∧
    (ScaledQuant.from_values [Fl.val 1, Fl.nan] = none ∧
      OffsetQuant.from_values [Fl.nan, Fl.val 2] =
        OffsetQuant.from_values (([Fl.nan, Fl.val 2] : List Fl).filter (fun v => !v.isNaN))) :=
  ⟨⟨by norm_num, by simp⟩,
    nan_handling_asymmetry [Fl.val 1, Fl.nan] [Fl.nan, Fl.val 2] (by norm_num) (by simp)⟩
